import Mathlib

/-!
Verification of the ended-auction ingestion pipeline
(`ended_auction_scraper.py`): binary tag decode, attribute
normalization, per-record processing, idempotent persistence, and the
scheduler loop.  Python dictionaries are modelled as insertion-ordered
association lists with last-write-wins update; Python values are the
`PyVal` type below.
-/

set_option maxRecDepth 2000

namespace Scraper

/-- Model of a Python value as it occurs in this pipeline: `None`,
booleans, integers (NBT numerics are kept as their big-endian integer
value), strings, lists and string-keyed dicts. -/
inductive PyVal where
  | pyNone : PyVal
  | pyBool : Bool → PyVal
  | pyInt : Int → PyVal
  | pyStr : String → PyVal
  | pyList : List PyVal → PyVal
  | pyDict : List (String × PyVal) → PyVal
deriving Repr

open PyVal

/-- Python truthiness (`if not raw`, `if pet_type`, `bool(...)`). -/
def truthy : PyVal → Bool
  | .pyNone => false
  | .pyBool b => b
  | .pyInt n => !(n == 0)
  | .pyStr s => !(s == "")
  | .pyList l => !l.isEmpty
  | .pyDict d => !d.isEmpty

/-- An insertion-ordered Python dict with string keys (e.g. the decoded
attribute mapping, or a raw auction object). -/
abbrev AttrMap := List (String × PyVal)

/-- `d[k]` / `d.get(k)`: first binding of `k` (maps built with `dset`
have unique keys, so this is the Python dict lookup). -/
def dget (m : AttrMap) (k : String) : Option PyVal :=
  match m.find? (fun p => p.1 == k) with
  | some p => some p.2
  | none => none

/-- `k in d`. -/
def dcontains (m : AttrMap) (k : String) : Bool :=
  m.any (fun p => p.1 == k)

/-- `d[k] = v`: update in place if the key exists (keeping its
position, Python dict semantics), else append. -/
def dset (m : AttrMap) (k : String) (v : PyVal) : AttrMap :=
  match m with
  | [] => [(k, v)]
  | (k', v') :: rest =>
      if k' == k then (k, v) :: rest else (k', v') :: dset rest k v

/-- `d.pop(k, default)` — the mapping with every binding of `k`
removed. -/
def dremove (m : AttrMap) (k : String) : AttrMap :=
  m.filter (fun p => !(p.1 == k))

/-- `d.get(k, default)` (also the value part of `d.pop(k, default)`). -/
def dgetD (m : AttrMap) (k : String) (dflt : PyVal) : PyVal :=
  match dget m k with
  | some v => v
  | none => dflt

/-- Left fold of `dset` over a sequence of bindings: the mapping built
by a Python dict comprehension / update loop (later duplicate keys
overwrite the value but keep the first insertion position). -/
def dsetMany (init : AttrMap) (entries : List (String × PyVal)) : AttrMap :=
  entries.foldl (fun m p => dset m p.1 p.2) init

/-! ## Binary tag decoder

The scraper delegates the byte-level work to an external library
(`base64.b64decode` and `nbt.nbt.NBTFile`), which is not part of this
repository.  Modelled from the spec: §4.1 describes the format — a
self-describing binary tree read by recursive descent (a type byte,
then for named tags a length-prefixed name, then a type-specific
payload: fixed-width numeric scalars, length-prefixed strings and byte
arrays, counted homogeneous sequences for lists, and end-marker
terminated named children for compounds), reached after base64-decoding
the raw payload; decoding fails when the buffer is truncated, a type
tag is unrecognized, or base64-decoding fails.  (The transport
compression layer is not part of the spec's format description and is
not modelled.)  Numeric scalars are kept as their big-endian unsigned
integer value. -/

/-- A scalar payload of a primitive tag.  (No scalar is
null-equivalent: the format has no null scalar.) -/
inductive NbtScalar where
  | sInt : Int → NbtScalar
  | sStr : String → NbtScalar
  | sBytes : List Nat → NbtScalar
deriving Repr

/-- `DecodedTag` of the spec: `Primitive | List | Compound`. -/
inductive NbtTag where
  | prim : NbtScalar → NbtTag
  | tlist : List NbtTag → NbtTag
  | compound : List (String × NbtTag) → NbtTag
deriving Repr

/-- `DecodeError` of the spec: truncated buffer, unrecognized type
tag, or base64 failure. -/
inductive DecodeError where
  | badBase64 : String → DecodeError
  | truncated : DecodeError
  | unknownTag : Nat → DecodeError
deriving Repr, DecidableEq

/-- `str(e)` of the exception, as recorded in the error mapping. -/
def DecodeError.msg : DecodeError → String
  | .badBase64 m => m
  | .truncated => "Truncated NBT data"
  | .unknownTag t => "Unrecognized tag " ++ toString t

/-- Value of a base64 alphabet character. -/
def b64Index (c : Char) : Option Nat :=
  if 'A' ≤ c ∧ c ≤ 'Z' then some (c.toNat - 65)
  else if 'a' ≤ c ∧ c ≤ 'z' then some (c.toNat - 71)
  else if '0' ≤ c ∧ c ≤ '9' then some (c.toNat + 4)
  else if c = '+' then some 62
  else if c = '/' then some 63
  else none

/-- Decode successive groups of four base64 characters into bytes;
`=` padding is legal only at the very end. -/
def b64Groups : List Char → Except String (List Nat)
  | [] => .ok []
  | a :: b :: c :: d :: rest =>
    match b64Index a, b64Index b with
    | some ia, some ib =>
      if c = '=' then
        if d = '=' ∧ rest = [] then .ok [ia * 4 + ib / 16]
        else .error "Invalid base64-encoded string"
      else
        match b64Index c with
        | some ic =>
          if d = '=' then
            if rest = [] then .ok [ia * 4 + ib / 16, ib % 16 * 16 + ic / 4]
            else .error "Invalid base64-encoded string"
          else
            match b64Index d with
            | some idx =>
              match b64Groups rest with
              | .ok tl =>
                  .ok ((ia * 4 + ib / 16) :: (ib % 16 * 16 + ic / 4) ::
                       (ic % 4 * 64 + idx) :: tl)
              | .error e => .error e
            | none => .error "Invalid base64-encoded string"
        | none => .error "Invalid base64-encoded string"
    | _, _ => .error "Invalid base64-encoded string"
  | _ => .error "Incorrect padding"

/-- `base64.b64decode` (non-validating mode: characters outside the
alphabet are discarded, as Python does by default; only bad padding is
an error). -/
def b64decode (s : String) : Except String (List Nat) :=
  let cs := s.data.filter (fun c => (b64Index c).isSome || c == '=')
  if cs.length % 4 == 0 then b64Groups cs else .error "Incorrect padding"

/-- Read exactly `n` bytes, or fail with a truncation error. -/
def takeBytes (n : Nat) (bs : List Nat) :
    Except DecodeError (List Nat × List Nat) :=
  if n ≤ bs.length then .ok (bs.take n, bs.drop n) else .error .truncated

/-- Big-endian value of a byte sequence. -/
def beVal (l : List Nat) : Nat := l.foldl (fun a b => a * 256 + b % 256) 0

/-- Bytes interpreted as text (one character per byte). -/
def bytesToString (l : List Nat) : String :=
  String.mk (l.map (fun b => Char.ofNat (b % 256)))

/-- Fixed-width numeric payload. -/
def parseNum (w : Nat) (bs : List Nat) :
    Except DecodeError (NbtTag × List Nat) :=
  match takeBytes w bs with
  | .error e => .error e
  | .ok (body, rest) => .ok (.prim (.sInt (Int.ofNat (beVal body))), rest)

mutual

/-- Payload of a tag of type `t` (1,2,3,4,5,6 numeric of widths
1,2,4,8,4,8; 7 byte array; 8 string; 9 list; 10 compound; anything
else is an unrecognized tag).  The fuel argument bounds recursion
depth; running out is reported as truncation. -/
def parsePayload : Nat → Nat → List Nat → Except DecodeError (NbtTag × List Nat)
  | 0, _, _ => .error .truncated
  | _ + 1, 1, bs => parseNum 1 bs
  | _ + 1, 2, bs => parseNum 2 bs
  | _ + 1, 3, bs => parseNum 4 bs
  | _ + 1, 4, bs => parseNum 8 bs
  | _ + 1, 5, bs => parseNum 4 bs
  | _ + 1, 6, bs => parseNum 8 bs
  | _ + 1, 7, bs =>
    (match takeBytes 4 bs with
     | .error e => .error e
     | .ok (lenB, rest) =>
       match takeBytes (beVal lenB) rest with
       | .error e => .error e
       | .ok (body, rest2) => .ok (.prim (.sBytes body), rest2))
  | _ + 1, 8, bs =>
    (match takeBytes 2 bs with
     | .error e => .error e
     | .ok (lenB, rest) =>
       match takeBytes (beVal lenB) rest with
       | .error e => .error e
       | .ok (body, rest2) => .ok (.prim (.sStr (bytesToString body)), rest2))
  | fuel + 1, 9, bs =>
    (match takeBytes 1 bs with
     | .error e => .error e
     | .ok (tb, rest) =>
       let et := beVal tb
       if et == 0 then .error (.unknownTag 0)
       else
         match takeBytes 4 rest with
         | .error e => .error e
         | .ok (cntB, rest2) =>
           match parseListElems fuel et (beVal cntB) rest2 with
           | .error e => .error e
           | .ok (elems, rest3) => .ok (.tlist elems, rest3))
  | fuel + 1, 10, bs =>
    (match parseCompoundItems fuel bs with
     | .error e => .error e
     | .ok (kvs, rest) => .ok (.compound kvs, rest))
  | _ + 1, t, _ => .error (.unknownTag t)

/-- `n` successive list elements of element type `et`. -/
def parseListElems : Nat → Nat → Nat → List Nat →
    Except DecodeError (List NbtTag × List Nat)
  | 0, _, _, _ => .error .truncated
  | _ + 1, _, 0, bs => .ok ([], bs)
  | fuel + 1, et, n + 1, bs =>
    match parsePayload fuel et bs with
    | .error e => .error e
    | .ok (tag, rest) =>
      match parseListElems fuel et n rest with
      | .error e => .error e
      | .ok (tags, rest2) => .ok (tag :: tags, rest2)

/-- Named children of a compound, up to the end marker (type byte 0). -/
def parseCompoundItems : Nat → List Nat →
    Except DecodeError (List (String × NbtTag) × List Nat)
  | 0, _ => .error .truncated
  | fuel + 1, bs =>
    match bs with
    | [] => .error .truncated
    | t :: rest =>
      if t % 256 == 0 then .ok ([], rest)
      else
        match takeBytes 2 rest with
        | .error e => .error e
        | .ok (lenB, rest2) =>
          match takeBytes (beVal lenB) rest2 with
          | .error e => .error e
          | .ok (nameB, rest3) =>
            match parsePayload fuel (t % 256) rest3 with
            | .error e => .error e
            | .ok (tag, rest4) =>
              match parseCompoundItems fuel rest4 with
              | .error e => .error e
              | .ok (kvs, rest5) => .ok ((bytesToString nameB, tag) :: kvs, rest5)

end

/-- Parse a whole buffer: one named root tag (type byte, then a
length-prefixed name, then its payload); trailing bytes are ignored,
as a file reader stops after the root tag. -/
def parseNbt (bs : List Nat) : Except DecodeError NbtTag :=
  match bs with
  | [] => .error .truncated
  | t :: rest =>
    if t % 256 == 0 then .error (.unknownTag 0)
    else
      match takeBytes 2 rest with
      | .error e => .error e
      | .ok (lenB, rest2) =>
        match takeBytes (beVal lenB) rest2 with
        | .error e => .error e
        | .ok (_, rest3) =>
          match parsePayload (bs.length + 1) (t % 256) rest3 with
          | .error e => .error e
          | .ok (tag, _) => .ok tag

/-- `decode(bytes) -> DecodedTag` of spec §4.1: base64-decode the raw
payload, then parse the binary tag tree. -/
def decodeRaw (raw : String) : Except DecodeError NbtTag :=
  match b64decode raw with
  | .error m => .error (.badBase64 m)
  | .ok bytes => parseNbt bytes

/-! ## Tree-to-value conversion and attribute extraction
(`nbt_to_dict` and `decode_inventory_data`, lines 33-93). -/

/-- The scalar value carried by a primitive tag. -/
def scalarToPy : NbtScalar → PyVal
  | .sInt n => .pyInt n
  | .sStr s => .pyStr s
  | .sBytes l => .pyList (l.map (fun b => PyVal.pyInt (Int.ofNat b)))

mutual

/-- Embeds `nbt_to_dict` (lines 33-43): a compound becomes a dict of
its converted children (a dict comprehension, so later duplicate names
overwrite), a list becomes a list, a primitive becomes its value.  The
list branch follows the generic conversion contract of spec 4.5
(compound to mapping, list to sequence, primitive to its value), which
is what line 36's isinstance dispatch is written to do; the reader
library's internal representation (a list-valued tags attribute on
both container kinds) is not modelled beyond that contract. -/
def nbt_to_dict : NbtTag → PyVal
  | .compound kvs => .pyDict (nbtAssoc kvs [])
  | .tlist ts => .pyList (nbtList ts)
  | .prim s => scalarToPy s

/-- Convert the elements of a list tag. -/
def nbtList : List NbtTag → List PyVal
  | [] => []
  | t :: ts => nbt_to_dict t :: nbtList ts

/-- Convert the named children of a compound, accumulating with `dset`
(Python dict-comprehension duplicate semantics). -/
def nbtAssoc : List (String × NbtTag) → AttrMap → AttrMap
  | [], acc => acc
  | (k, v) :: rest, acc => nbtAssoc rest (dset acc k (nbt_to_dict v))

end

/-- Compound child lookup (`tag[name]` / `name in tag` of the library
reader: first child with a matching name; non-compounds contain
nothing). -/
def tagGet : NbtTag → String → Option NbtTag
  | .compound kvs, k =>
    (match kvs.find? (fun p => p.1 == k) with
     | some p => some p.2
     | none => none)
  | _, _ => none

/-! ## Embedded JSON decoding of `petInfo`

`json.loads` is library code; modelled from the spec: `petInfo`
"decodes (as embedded structured text) to an object".  The model
covers the JSON fragment the pipeline relies on — objects, arrays,
strings without escape sequences, integer numbers, `true`, `false`,
`null` — and fails (as `json.loads` raises) on anything else. -/

/-- Skip JSON whitespace. -/
def jsonSkipWs : List Char → List Char
  | c :: rest =>
    if c == ' ' || c == '\t' || c == '\n' || c == '\r' then jsonSkipWs rest
    else c :: rest
  | [] => []

/-- Match an exact literal suffix ("ull", "rue", "alse"). -/
def jsonLit (lit : List Char) (cs : List Char) : Option (List Char) :=
  match lit, cs with
  | [], rest => some rest
  | l :: ls, c :: rest => if c == l then jsonLit ls rest else none
  | _ :: _, [] => none

/-- Body of a JSON string after the opening quote (escape sequences
are outside the modelled fragment). -/
def jsonStrBody (acc : List Char) : List Char → Except String (String × List Char)
  | c :: rest =>
    if c == '"' then .ok (String.mk acc.reverse, rest)
    else if c == '\\' then .error "escape sequences not modelled"
    else jsonStrBody (c :: acc) rest
  | [] => .error "Unterminated string"

/-- An integer JSON number starting at the current position. -/
def jsonNumber (cs : List Char) : Except String (PyVal × List Char) :=
  let (neg, cs') := match cs with
    | '-' :: rest => (true, rest)
    | _ => (false, cs)
  let digits := cs'.takeWhile Char.isDigit
  let rest := cs'.dropWhile Char.isDigit
  if digits.isEmpty then .error "Expecting value"
  else
    match rest with
    | '.' :: _ => .error "non-integer number not modelled"
    | 'e' :: _ => .error "non-integer number not modelled"
    | 'E' :: _ => .error "non-integer number not modelled"
    | _ =>
      let n : Nat := digits.foldl (fun a c => a * 10 + (c.toNat - 48)) 0
      .ok (.pyInt (if neg then -(Int.ofNat n) else Int.ofNat n), rest)

mutual

/-- One JSON value starting at the current position. -/
def jsonValue : Nat → List Char → Except String (PyVal × List Char)
  | 0, _ => .error "Expecting value"
  | fuel + 1, cs =>
    match jsonSkipWs cs with
    | [] => .error "Expecting value"
    | 'n' :: rest =>
      (match jsonLit "ull".data rest with
       | some rest2 => .ok (.pyNone, rest2)
       | none => .error "Expecting value")
    | 't' :: rest =>
      (match jsonLit "rue".data rest with
       | some rest2 => .ok (.pyBool true, rest2)
       | none => .error "Expecting value")
    | 'f' :: rest =>
      (match jsonLit "alse".data rest with
       | some rest2 => .ok (.pyBool false, rest2)
       | none => .error "Expecting value")
    | '"' :: rest =>
      (match jsonStrBody [] rest with
       | .ok (s, rest2) => .ok (.pyStr s, rest2)
       | .error e => .error e)
    | '[' :: rest =>
      (match jsonSkipWs rest with
       | ']' :: rest2 => .ok (.pyList [], rest2)
       | cs2 =>
         match jsonValue fuel cs2 with
         | .error e => .error e
         | .ok (v, rest2) =>
           match jsonArrayRest fuel rest2 with
           | .error e => .error e
           | .ok (vs, rest3) => .ok (.pyList (v :: vs), rest3))
    | '{' :: rest =>
      (match jsonSkipWs rest with
       | '}' :: rest2 => .ok (.pyDict [], rest2)
       | cs2 =>
         match jsonMember fuel cs2 with
         | .error e => .error e
         | .ok (kv, rest2) =>
           match jsonObjectRest fuel rest2 with
           | .error e => .error e
           | .ok (kvs, rest3) => .ok (.pyDict (dsetMany [] (kv :: kvs)), rest3))
    | cs' => jsonNumber cs'

/-- Remaining array elements after the first: `, value`* then `]`. -/
def jsonArrayRest : Nat → List Char → Except String (List PyVal × List Char)
  | 0, _ => .error "Expecting value"
  | fuel + 1, cs =>
    match jsonSkipWs cs with
    | ']' :: rest => .ok ([], rest)
    | ',' :: rest =>
      (match jsonValue fuel rest with
       | .error e => .error e
       | .ok (v, rest2) =>
         match jsonArrayRest fuel rest2 with
         | .error e => .error e
         | .ok (vs, rest3) => .ok (v :: vs, rest3))
    | _ => .error "Expecting comma"

/-- One `"key": value` member of an object. -/
def jsonMember : Nat → List Char → Except String ((String × PyVal) × List Char)
  | 0, _ => .error "Expecting value"
  | fuel + 1, cs =>
    match jsonSkipWs cs with
    | '"' :: rest =>
      (match jsonStrBody [] rest with
       | .error e => .error e
       | .ok (k, rest2) =>
         match jsonSkipWs rest2 with
         | ':' :: rest3 =>
           (match jsonValue fuel rest3 with
            | .error e => .error e
            | .ok (v, rest4) => .ok ((k, v), rest4))
         | _ => .error "Expecting colon")
    | _ => .error "Expecting property name"

/-- Remaining object members after the first: `, member`* then `}`. -/
def jsonObjectRest : Nat → List Char →
    Except String (List (String × PyVal) × List Char)
  | 0, _ => .error "Expecting value"
  | fuel + 1, cs =>
    match jsonSkipWs cs with
    | '}' :: rest => .ok ([], rest)
    | ',' :: rest =>
      (match jsonMember fuel rest with
       | .error e => .error e
       | .ok (kv, rest2) =>
         match jsonObjectRest fuel rest2 with
         | .error e => .error e
         | .ok (kvs, rest3) => .ok (kv :: kvs, rest3))
    | _ => .error "Expecting comma"

end

/-- `json.loads`: one JSON value followed only by whitespace. -/
def jsonLoads (s : String) : Except String PyVal :=
  match jsonValue (s.length + 1) s.data with
  | .error e => .error e
  | .ok (v, rest) =>
    if (jsonSkipWs rest).isEmpty then .ok v else .error "Extra data"

/-- The `{"error": msg}` mapping returned by `decode_inventory_data`
on every failure path. -/
def errDict (msg : String) : AttrMap := [("error", .pyStr msg)]

/-- `result.get("id") == "PET"` (only a string compares equal to a
string in Python). -/
def isPetId (m : AttrMap) : Bool :=
  match dget m "id" with
  | some (.pyStr s) => s == "PET"
  | _ => false

/-- Embeds the pet specialization step (lines 79-87): when the mapping
has `id == "PET"` and a `petInfo` key, try `json.loads` on it and, if
the result has a truthy `type`, rewrite `id` to `"PET_" + type.upper()`.
Every failure of the embedded decode (`petInfo` not a string, not
valid JSON, not an object, `type` missing / falsy / not a string — the
latter makes `.upper()` raise) is caught by the `except` and leaves
the mapping unchanged, logging a warning. -/
def petRewrite (result : AttrMap) : AttrMap :=
  if isPetId result && dcontains result "petInfo" then
    match dget result "petInfo" with
    | some (.pyStr s) =>
      (match jsonLoads s with
       | .ok (.pyDict d) =>
         (match dget d "type" with
          | some v =>
            if truthy v then
              match v with
              | .pyStr t => dset result "id" (.pyStr ("PET_" ++ t.toUpper))
              | _ => result
            else result
          | none => result)
       | .ok _ => result
       | .error _ => result)
    | _ => result
  else result

/-- `tag.value` of the library reader: a primitive tag carries its
scalar value, while for a list or compound tag the attribute was never
assigned — the reader's base tag class stores `value=None` and the
container tags do not overwrite it — so the access yields the
null-equivalent value. -/
def tagValue : NbtTag → PyVal
  | .prim s => scalarToPy s
  | .tlist _ => .pyNone
  | .compound _ => .pyNone

/-- Lines 63-65: the basic info recorded before any `ExtraAttributes`
handling (the spec's "result containing only item-count metadata"):
`result["count"] = item["Count"].value`. -/
def countOnly (item : NbtTag) : AttrMap :=
  match tagGet item "Count" with
  | some t => [("count", tagValue t)]
  | none => []

/-- Embeds lines 62-89 on the first item of the inventory list: record
`count` if a `Count` child exists, return only that basic info when
the `tag`/`ExtraAttributes` path is absent, otherwise convert each
`ExtraAttributes` child with `nbt_to_dict` into the mapping and apply
the pet rewrite.  A structurally malformed item (not a compound, as
only a crafted payload can produce) makes the accesses raise, which
the enclosing handler turns into an error mapping. -/
def extractItem (item : NbtTag) : AttrMap :=
  match item with
  | .compound _ =>
    (match tagGet item "tag" with
     | none => countOnly item
     | some tagT =>
       match tagGet tagT "ExtraAttributes" with
       | none => countOnly item
       | some ea =>
         match ea with
         | .compound eakvs =>
           petRewrite
             (eakvs.foldl (fun m p => dset m p.1 (nbt_to_dict p.2)) (countOnly item))
         | _ => countOnly item)
  | _ => errDict "Malformed item entry"

/-- Embeds `decode_inventory_data` (lines 45-93).  Empty / non-string
raw data, a base64 or parse failure, a missing `i` key, an empty item
list, and a malformed item all produce an `{"error": ...}` mapping and
never raise; otherwise the first item's attributes are extracted. -/
def decode_inventory_data (raw : PyVal) : AttrMap :=
  if !truthy raw then errDict "Empty raw data"
  else
    match raw with
    | .pyStr s =>
      (match decodeRaw s with
       | .error e => errDict e.msg
       | .ok root =>
         match tagGet root "i" with
         | none => errDict "No i key in NBT data"
         | some itemsTag =>
           match itemsTag with
           | .tlist [] => errDict "No items in inventory"
           | .tlist (item :: _) => extractItem item
           | _ => errDict "Malformed items entry")
    | _ => errDict "argument should be a bytes-like object or ASCII string"

/-! ## Auction processor (`process_auction`, lines 154-184). -/

/-- The row assembled for one auction (`item_attributes` is the
mapping handed to `json.dumps`; `id` is `pyNone` when absent, as
`attrs.pop("id", None)` yields). -/
structure AuctionRecord where
  auction_id : PyVal
  price : PyVal
  timestamp : PyVal
  bin : Bool
  id : PyVal
  item_attributes : AttrMap
deriving Repr

/-- Embeds `process_auction`: drop the auction (with a warning) when
`auction_id` is missing or falsy; decode the item payload; treat a
mapping containing an `error` key as a decode failure and continue
with empty attributes; promote `id` out of the mapping; default
missing `price`/`timestamp` to `0` and `bin` to `False`. -/
def process_auction (auction_data : AttrMap) : Option AuctionRecord :=
  let auction_id := dgetD auction_data "auction_id" .pyNone
  if !truthy auction_id then none
  else
    let item_bytes := dgetD auction_data "item_bytes" (.pyStr "")
    let attrs0 := decode_inventory_data item_bytes
    let attrs := if dcontains attrs0 "error" then [] else attrs0
    some {
      auction_id := auction_id
      price := dgetD auction_data "price" (.pyInt 0)
      timestamp := dgetD auction_data "timestamp" (.pyInt 0)
      bin := truthy (dgetD auction_data "bin" (.pyBool false))
      id := dgetD attrs "id" .pyNone
      item_attributes := dremove attrs "id" }

/-- The per-cycle processing loop of `job` (lines 233-237): process
each auction, keeping the successful records in order. -/
def processList (auctions : List AttrMap) : List AuctionRecord :=
  auctions.filterMap process_auction

/-! ## Store (`save_auctions`, lines 186-221)

The table is modelled as the insertion-ordered list of its rows; the
`PRIMARY KEY` on `auction_id` makes an `INSERT` of an existing id
raise `sqlite3.IntegrityError`, which the code catches and turns into
a skip. -/

mutual

/-- Structural equality of Python values (the primary-key comparison
on the stored `auction_id`). -/
def pyBeq : PyVal → PyVal → Bool
  | .pyNone, .pyNone => true
  | .pyBool a, .pyBool b => a == b
  | .pyInt a, .pyInt b => a == b
  | .pyStr a, .pyStr b => a == b
  | .pyList a, .pyList b => pyBeqList a b
  | .pyDict a, .pyDict b => pyBeqAssoc a b
  | _, _ => false

/-- Elementwise equality of value lists. -/
def pyBeqList : List PyVal → List PyVal → Bool
  | [], [] => true
  | a :: xs, b :: ys => pyBeq a b && pyBeqList xs ys
  | _, _ => false

/-- Entrywise equality of dict entry lists. -/
def pyBeqAssoc : List (String × PyVal) → List (String × PyVal) → Bool
  | [], [] => true
  | (k, a) :: xs, (l, b) :: ys => k == l && pyBeq a b && pyBeqAssoc xs ys
  | _, _ => false

end

/-- The auctions table. -/
abbrev Db := List AuctionRecord

/-- Whether a row with this `auction_id` exists. -/
def dbHas (db : Db) (aid : PyVal) : Bool :=
  db.any (fun r => pyBeq r.auction_id aid)

/-- The stored row for an `auction_id`. -/
def dbFind (db : Db) (aid : PyVal) : Option AuctionRecord :=
  db.find? (fun r => pyBeq r.auction_id aid)

/-- No two rows share an `auction_id` (the PRIMARY KEY invariant). -/
def uniqueIds : Db → Bool
  | [] => true
  | r :: rest => !dbHas rest r.auction_id && uniqueIds rest

/-- Embeds `save_auctions`: insert each record in order; an id already
present raises `IntegrityError`, which is caught — the record is
skipped and not counted; each successful insert appends the row and
increments `saved_count`.  Returns the new table and `saved_count`. -/
def save_auctions : Db → List AuctionRecord → Db × Nat
  | db, [] => (db, 0)
  | db, r :: recs =>
    if dbHas db r.auction_id then save_auctions db recs
    else
      let s := save_auctions (db ++ [r]) recs
      (s.1, s.2 + 1)

/-- Embeds `job` (lines 223-245) from the fetched auction list on:
return immediately when no auctions were fetched, otherwise process
every auction and save the results.  Returns the new table and the
logged `saved_count`. -/
def job (db : Db) (auctions : List AttrMap) : Db × Nat :=
  if auctions.isEmpty then (db, 0)
  else save_auctions db (processList auctions)

/-! ## Scheduler loop (`main`, lines 256-267)

One loop iteration either completes a cycle (`job()` swallows its own
failures, lines 244-245; anything escaping it is caught by the loop's
`except Exception`, lines 264-267 — both paths log the cause and are
followed by the same 60-second sleep), or receives the external
shutdown signal (`KeyboardInterrupt`) and breaks.  The loop is driven
by a finite trace of such outcomes. -/

/-- What one loop iteration encounters. -/
inductive CycleOutcome where
  | ok : CycleOutcome
  | failure : String → CycleOutcome
  | interrupt : CycleOutcome
deriving Repr, DecidableEq

/-- Observable actions of the loop. -/
inductive LoopEvent where
  | cycle : LoopEvent
  | logged : String → LoopEvent
  | slept : Nat → LoopEvent
  | shutdown : LoopEvent
deriving Repr, DecidableEq

/-- Embeds the `while True` loop of `main`: an ok cycle runs the job
and sleeps 60 seconds; a failed cycle runs the job, logs the cause and
sleeps the same 60 seconds before retrying; the interrupt breaks out.
Returns the emitted events and whether the loop terminated. -/
def mainLoop : List CycleOutcome → List LoopEvent × Bool
  | [] => ([], false)
  | .ok :: rest =>
    let r := mainLoop rest
    (.cycle :: .slept 60 :: r.1, r.2)
  | .failure m :: rest =>
    let r := mainLoop rest
    (.cycle :: .logged m :: .slept 60 :: r.1, r.2)
  | .interrupt :: _ => ([.shutdown], true)

/-! ## Concrete payloads

Base64 encodings of small binary tag trees, used as concrete inputs. -/

/-- Root compound whose first inventory item carries an
`ExtraAttributes` child literally named `error` (value `"x"`). -/
def rawErrorAttr : String :=
  "CgAACQABaQoAAAABCgADdGFnCgAPRXh0cmFBdHRyaWJ1dGVzCAAFZXJyb3IAAXgAAAAA"

/-- Root compound whose `i` list has zero entries. -/
def rawEmptyItems : String := "CgAACQABaQEAAAAAAA=="

/-- Root compound with one item holding only a `Count` byte (no
`tag`/`ExtraAttributes` path). -/
def rawCountOnly : String := "CgAACQABaQoAAAABAQAFQ291bnQBAAA="

/-! ## Helper lemmas -/

mutual

theorem pyBeq_refl : (v : PyVal) → pyBeq v v = true
  | .pyNone => rfl
  | .pyBool b => by simp [pyBeq]
  | .pyInt n => by simp [pyBeq]
  | .pyStr s => by simp [pyBeq]
  | .pyList l => by simp [pyBeq, pyBeqList_refl l]
  | .pyDict d => by simp [pyBeq, pyBeqAssoc_refl d]

theorem pyBeqList_refl : (l : List PyVal) → pyBeqList l l = true
  | [] => rfl
  | v :: vs => by simp [pyBeqList, pyBeq_refl v, pyBeqList_refl vs]

theorem pyBeqAssoc_refl : (l : List (String × PyVal)) → pyBeqAssoc l l = true
  | [] => rfl
  | (k, v) :: vs => by simp [pyBeqAssoc, pyBeq_refl v, pyBeqAssoc_refl vs]

end

theorem lawful_beq_comm {α : Type} [BEq α] [LawfulBEq α] (a b : α) :
    (a == b) = (b == a) := by
  cases hab : a == b with
  | true =>
    have h := eq_of_beq hab
    subst h
    exact (beq_self_eq_true a).symm
  | false =>
    cases hba : b == a with
    | false => rfl
    | true =>
      have h := eq_of_beq hba
      subst h
      simp at hab

mutual

theorem pyBeq_symm : (a b : PyVal) → pyBeq a b = pyBeq b a
  | .pyNone, .pyNone => rfl
  | .pyBool a, .pyBool b => by simp [pyBeq, Bool.beq_comm]
  | .pyInt a, .pyInt b => by simp [pyBeq]; exact eq_comm
  | .pyStr a, .pyStr b => by simp [pyBeq]; exact eq_comm
  | .pyList a, .pyList b => by simp [pyBeq, pyBeqList_symm a b]
  | .pyDict a, .pyDict b => by simp [pyBeq, pyBeqAssoc_symm a b]
  | .pyNone, .pyBool _ => rfl
  | .pyNone, .pyInt _ => rfl
  | .pyNone, .pyStr _ => rfl
  | .pyNone, .pyList _ => rfl
  | .pyNone, .pyDict _ => rfl
  | .pyBool _, .pyNone => rfl
  | .pyBool _, .pyInt _ => rfl
  | .pyBool _, .pyStr _ => rfl
  | .pyBool _, .pyList _ => rfl
  | .pyBool _, .pyDict _ => rfl
  | .pyInt _, .pyNone => rfl
  | .pyInt _, .pyBool _ => rfl
  | .pyInt _, .pyStr _ => rfl
  | .pyInt _, .pyList _ => rfl
  | .pyInt _, .pyDict _ => rfl
  | .pyStr _, .pyNone => rfl
  | .pyStr _, .pyBool _ => rfl
  | .pyStr _, .pyInt _ => rfl
  | .pyStr _, .pyList _ => rfl
  | .pyStr _, .pyDict _ => rfl
  | .pyList _, .pyNone => rfl
  | .pyList _, .pyBool _ => rfl
  | .pyList _, .pyInt _ => rfl
  | .pyList _, .pyStr _ => rfl
  | .pyList _, .pyDict _ => rfl
  | .pyDict _, .pyNone => rfl
  | .pyDict _, .pyBool _ => rfl
  | .pyDict _, .pyInt _ => rfl
  | .pyDict _, .pyStr _ => rfl
  | .pyDict _, .pyList _ => rfl

theorem pyBeqList_symm : (a b : List PyVal) → pyBeqList a b = pyBeqList b a
  | [], [] => rfl
  | [], _ :: _ => rfl
  | _ :: _, [] => rfl
  | a :: xs, b :: ys => by
      simp [pyBeqList, pyBeq_symm a b, pyBeqList_symm xs ys]

theorem pyBeqAssoc_symm : (a b : List (String × PyVal)) →
    pyBeqAssoc a b = pyBeqAssoc b a
  | [], [] => rfl
  | [], _ :: _ => rfl
  | _ :: _, [] => rfl
  | (k, a) :: xs, (l, b) :: ys => by
      simp [pyBeqAssoc, pyBeq_symm a b, pyBeqAssoc_symm xs ys,
        Bool.and_assoc]
      rw [lawful_beq_comm k l]

end

theorem dbHas_append (db e : Db) (aid : PyVal) :
    dbHas (db ++ e) aid = (dbHas db aid || dbHas e aid) := by
  simp [dbHas, List.any_append]

theorem dbHas_singleton (r : AuctionRecord) (aid : PyVal) :
    dbHas [r] aid = pyBeq r.auction_id aid := by
  simp [dbHas]

theorem dbFind_append_left {db : Db} (e : Db) {aid : PyVal}
    (h : dbHas db aid = true) : dbFind (db ++ e) aid = dbFind db aid := by
  induction db with
  | nil => simp [dbHas] at h
  | cons r rest ih =>
    by_cases hr : pyBeq r.auction_id aid = true
    · simp [dbFind, List.find?_cons_of_pos, hr]
    · have hr' : pyBeq r.auction_id aid = false := by
        revert hr; cases pyBeq r.auction_id aid <;> simp
      have h' : dbHas rest aid = true := by
        have := h
        simp [dbHas, List.any_cons, hr'] at this
        simpa [dbHas] using this
      have := ih h'
      simpa [dbFind, List.find?_cons_of_neg, hr'] using this

theorem save_shape (recs : List AuctionRecord) :
    ∀ db, ∃ extra, (save_auctions db recs).1 = db ++ extra := by
  induction recs with
  | nil => intro db; exact ⟨[], by simp [save_auctions]⟩
  | cons r recs ih =>
    intro db
    by_cases h : dbHas db r.auction_id = true
    · obtain ⟨extra, he⟩ := ih db
      exact ⟨extra, by simp [save_auctions, h, he]⟩
    · have h' : dbHas db r.auction_id = false := by
        revert h; cases dbHas db r.auction_id <;> simp
      obtain ⟨extra, he⟩ := ih (db ++ [r])
      exact ⟨r :: extra, by simp [save_auctions, h', he]⟩

theorem dbHas_save_mono {db : Db} {aid : PyVal} (recs : List AuctionRecord)
    (h : dbHas db aid = true) :
    dbHas (save_auctions db recs).1 aid = true := by
  obtain ⟨extra, he⟩ := save_shape recs db
  rw [he, dbHas_append, h]
  rfl

theorem save_mem_has (recs : List AuctionRecord) :
    ∀ db, ∀ r ∈ recs, dbHas (save_auctions db recs).1 r.auction_id = true := by
  induction recs with
  | nil => intro db r hr; cases hr
  | cons r' recs ih =>
    intro db r hr
    rcases List.mem_cons.1 hr with h | h
    · subst h
      by_cases hd : dbHas db r.auction_id = true
      · simpa [save_auctions, hd] using dbHas_save_mono recs hd
      · have hd' : dbHas db r.auction_id = false := by
          revert hd; cases dbHas db r.auction_id <;> simp
        have hin : dbHas (db ++ [r]) r.auction_id = true := by
          rw [dbHas_append, dbHas_singleton, pyBeq_refl]
          simp
        simpa [save_auctions, hd'] using dbHas_save_mono recs hin
    · by_cases hd : dbHas db r'.auction_id = true
      · simpa [save_auctions, hd] using ih db r h
      · have hd' : dbHas db r'.auction_id = false := by
          revert hd; cases dbHas db r'.auction_id <;> simp
        simpa [save_auctions, hd'] using ih (db ++ [r']) r h

theorem save_all_present {recs : List AuctionRecord} {db : Db}
    (h : ∀ r ∈ recs, dbHas db r.auction_id = true) :
    save_auctions db recs = (db, 0) := by
  induction recs with
  | nil => rfl
  | cons r recs ih =>
    have hr := h r (List.mem_cons_self r recs)
    simp [save_auctions, hr]
    exact ih (fun x hx => h x (List.mem_cons_of_mem r hx))

theorem save_len (recs : List AuctionRecord) :
    ∀ db, (save_auctions db recs).1.length =
      db.length + (save_auctions db recs).2 := by
  induction recs with
  | nil => intro db; simp [save_auctions]
  | cons r recs ih =>
    intro db
    by_cases h : dbHas db r.auction_id = true
    · simpa [save_auctions, h] using ih db
    · have h' : dbHas db r.auction_id = false := by
        revert h; cases dbHas db r.auction_id <;> simp
      simp [save_auctions, h']
      have := ih (db ++ [r])
      simp at this
      omega

theorem filter_not_has_mono {db db' : Db}
    (h : ∀ aid, dbHas db aid = true → dbHas db' aid = true)
    (recs : List AuctionRecord) :
    (recs.filter (fun r => !dbHas db' r.auction_id)).length ≤
      (recs.filter (fun r => !dbHas db r.auction_id)).length := by
  induction recs with
  | nil => simp
  | cons r recs ih =>
    by_cases hr : dbHas db r.auction_id = true
    · have hr' := h _ hr
      by_cases hq : dbHas db' r.auction_id = true
      · simp [List.filter_cons, hr, hr']
        exact ih
      · exact absurd hr' hq
    · have hrf : dbHas db r.auction_id = false := by
        revert hr; cases dbHas db r.auction_id <;> simp
      by_cases hq : dbHas db' r.auction_id = true
      · simp [List.filter_cons, hrf, hq]
        exact Nat.le_succ_of_le ih
      · have hqf : dbHas db' r.auction_id = false := by
          revert hq; cases dbHas db' r.auction_id <;> simp
        simp [List.filter_cons, hrf, hqf]
        exact ih

theorem save_count_le (recs : List AuctionRecord) :
    ∀ db, (save_auctions db recs).2 ≤
      (recs.filter (fun r => !dbHas db r.auction_id)).length := by
  induction recs with
  | nil => intro db; simp [save_auctions]
  | cons r recs ih =>
    intro db
    by_cases h : dbHas db r.auction_id = true
    · simp [save_auctions, h, List.filter_cons]
      calc (save_auctions db recs).2
          ≤ (recs.filter (fun x => !dbHas db x.auction_id)).length := ih db
        _ ≤ _ := by simp [List.filter_cons]
    · have h' : dbHas db r.auction_id = false := by
        revert h; cases dbHas db r.auction_id <;> simp
      simp [save_auctions, h', List.filter_cons]
      have hmono : ∀ aid, dbHas db aid = true → dbHas (db ++ [r]) aid = true := by
        intro aid ha; rw [dbHas_append, ha]; rfl
      calc (save_auctions (db ++ [r]) recs).2
          ≤ (recs.filter (fun x => !dbHas (db ++ [r]) x.auction_id)).length :=
            ih (db ++ [r])
        _ ≤ (recs.filter (fun x => !dbHas db x.auction_id)).length :=
            filter_not_has_mono hmono recs

theorem uniqueIds_append_one {db : Db} {r : AuctionRecord}
    (h1 : uniqueIds db = true) (h2 : dbHas db r.auction_id = false) :
    uniqueIds (db ++ [r]) = true := by
  induction db with
  | nil => simp [uniqueIds, dbHas]
  | cons d db ih =>
    have hd : pyBeq d.auction_id r.auction_id = false := by
      have := h2
      simp [dbHas, List.any_cons] at this
      exact this.1
    have hdb : dbHas db r.auction_id = false := by
      have := h2
      simp [dbHas, List.any_cons] at this
      simpa [dbHas] using this.2
    have h1' : uniqueIds db = true ∧ dbHas db d.auction_id = false := by
      have := h1
      simp [uniqueIds] at this
      exact ⟨this.2, this.1⟩
    have goal2 : uniqueIds (db ++ [r]) = true := ih h1'.1 hdb
    have goal1 : dbHas (db ++ [r]) d.auction_id = false := by
      rw [dbHas_append, h1'.2, dbHas_singleton]
      rw [pyBeq_symm, hd]
      rfl
    simp [uniqueIds, goal1, goal2]

theorem save_unique (recs : List AuctionRecord) :
    ∀ db, uniqueIds db = true → uniqueIds (save_auctions db recs).1 = true := by
  induction recs with
  | nil => intro db h; simpa [save_auctions] using h
  | cons r recs ih =>
    intro db h
    by_cases hd : dbHas db r.auction_id = true
    · simpa [save_auctions, hd] using ih db h
    · have hd' : dbHas db r.auction_id = false := by
        revert hd; cases dbHas db r.auction_id <;> simp
      have := uniqueIds_append_one h hd'
      simpa [save_auctions, hd'] using ih (db ++ [r]) this


theorem dcontains_of_dget {m : AttrMap} {k : String} {v : PyVal}
    (h : dget m k = some v) : dcontains m k = true := by
  induction m with
  | nil => simp [dget] at h
  | cons p rest ih =>
    by_cases hk : (p.1 == k) = true
    · simp [dcontains, List.any_cons, hk]
    · have hk2 : (p.1 == k) = false := by
        revert hk; cases p.1 == k <;> simp
      have h2 : dget rest k = some v := by
        simpa [dget, List.find?_cons, hk2] using h
      have h3 : dcontains (p :: rest) k = ((p.1 == k) || dcontains rest k) := rfl
      rw [h3, hk2, ih h2]
      rfl

theorem dcontains_dremove_self (m : AttrMap) (k : String) :
    dcontains (dremove m k) k = false := by
  induction m with
  | nil => rfl
  | cons p rest ih =>
    by_cases hk : (p.1 == k) = true
    · simpa [dremove, List.filter_cons, hk] using ih
    · have hk2 : (p.1 == k) = false := by
        revert hk; cases p.1 == k <;> simp
      simp [dremove, List.filter_cons, hk2, dcontains, List.any_cons]

theorem mem_dremove {p : String × PyVal} {m : AttrMap} {k : String}
    (h : p ∈ dremove m k) : p ∈ m :=
  List.mem_of_mem_filter h

theorem nbt_to_dict_ne_none : ∀ t : NbtTag, nbt_to_dict t ≠ .pyNone
  | .prim s => by cases s <;> simp [nbt_to_dict, scalarToPy]
  | .tlist ts => by simp [nbt_to_dict]
  | .compound kvs => by simp [nbt_to_dict]

/-- Every entry other than `count` carries a non-null value.  (The
`count` entry is exempt: line 65's direct `item["Count"].value` access
is the one place a null can enter the mapping, when the `Count` child
is a container tag.) -/
def noNoneExceptCount (m : AttrMap) : Prop :=
  ∀ p ∈ m, p.1 ≠ "count" → p.2 ≠ PyVal.pyNone

theorem nnec_nil : noNoneExceptCount [] := by
  intro p hp; cases hp

theorem nnec_errDict (msg : String) : noNoneExceptCount (errDict msg) := by
  intro p hp _
  rcases List.mem_singleton.1 hp with rfl
  simp [errDict]

theorem nnec_dset {m : AttrMap} {k : String} {v : PyVal}
    (hm : noNoneExceptCount m) (hv : v ≠ PyVal.pyNone) :
    noNoneExceptCount (dset m k v) := by
  induction m with
  | nil =>
    intro p hp _
    rcases List.mem_singleton.1 hp with rfl
    exact hv
  | cons q rest ih =>
    obtain ⟨qk, qv⟩ := q
    intro p hp
    have hrest : noNoneExceptCount rest :=
      fun x hx => hm x (List.mem_cons_of_mem _ hx)
    have hd : dset ((qk, qv) :: rest) k v
        = if (qk == k) = true then (k, v) :: rest
          else (qk, qv) :: dset rest k v := rfl
    by_cases hq : (qk == k) = true
    · rw [hd, if_pos hq] at hp
      rcases List.mem_cons.1 hp with rfl | hp2
      · intro _; exact hv
      · exact hrest p hp2
    · rw [hd, if_neg hq] at hp
      rcases List.mem_cons.1 hp with rfl | hp2
      · exact hm _ (List.mem_cons_self _ rest)
      · exact ih hrest p hp2

theorem nnec_foldl_dset (entries : List (String × NbtTag)) :
    ∀ m, noNoneExceptCount m →
      noNoneExceptCount
        (entries.foldl (fun acc p => dset acc p.1 (nbt_to_dict p.2)) m) := by
  induction entries with
  | nil => intro m hm; exact hm
  | cons e rest ih =>
    intro m hm
    exact ih _ (nnec_dset hm (nbt_to_dict_ne_none e.2))

theorem petRewrite_cases (m : AttrMap) :
    petRewrite m = m ∨ ∃ t, petRewrite m = dset m "id" (.pyStr t) := by
  unfold petRewrite
  repeat' split
  all_goals first
    | exact Or.inl rfl
    | exact Or.inr ⟨_, rfl⟩

theorem nnec_petRewrite {m : AttrMap} (hm : noNoneExceptCount m) :
    noNoneExceptCount (petRewrite m) := by
  rcases petRewrite_cases m with h | ⟨t, h⟩
  · rw [h]; exact hm
  · rw [h]; exact nnec_dset hm (by simp)

theorem nnec_countOnly (item : NbtTag) :
    noNoneExceptCount (countOnly item) := by
  unfold countOnly
  rcases tagGet item "Count" with _ | t
  · exact nnec_nil
  · intro p hp hk
    rcases List.mem_singleton.1 hp with rfl
    exact absurd rfl hk

theorem nnec_extractItem (item : NbtTag) :
    noNoneExceptCount (extractItem item) := by
  unfold extractItem
  repeat' split
  all_goals first
    | exact nnec_errDict _
    | exact nnec_countOnly _
    | exact nnec_petRewrite (nnec_foldl_dset _ _ (nnec_countOnly _))

theorem nnec_decode (v : PyVal) :
    noNoneExceptCount (decode_inventory_data v) := by
  unfold decode_inventory_data
  repeat' split
  all_goals first
    | exact nnec_errDict _
    | exact nnec_extractItem _


/-! ## Claim theorems -/

/-- Claim C1: for every batch passed to `save_auctions`, the returned
saved count excludes every record whose `auction_id` already exists in
the store (it is bounded by the number of records with fresh ids), the
previously stored row for an existing id is left unchanged
(first-write-wins), the table never contains two rows with the same
`auction_id`, and the count is exactly the number of rows appended; a
duplicate id never raises — it is the skip branch of the function. -/
theorem save_auctions_dedup (db : Db) (recs : List AuctionRecord)
    (h : uniqueIds db = true) :
    (save_auctions db recs).2 ≤
        (recs.filter (fun r => !dbHas db r.auction_id)).length
    ∧ (∀ aid, dbHas db aid = true →
        dbFind (save_auctions db recs).1 aid = dbFind db aid)
    ∧ uniqueIds (save_auctions db recs).1 = true
    ∧ (save_auctions db recs).1.length
        = db.length + (save_auctions db recs).2 := by
  refine ⟨save_count_le recs db, ?_, save_unique recs db h, save_len recs db⟩
  intro aid ha
  obtain ⟨extra, he⟩ := save_shape recs db
  rw [he]
  exact dbFind_append_left extra ha

/-- A stored row. -/
def recA : AuctionRecord :=
  ⟨.pyStr "A1", .pyInt 100, .pyInt 1000, false, .pyNone, []⟩

/-- A later record that reuses `recA`'s auction id with different data. -/
def recA2 : AuctionRecord :=
  ⟨.pyStr "A1", .pyInt 999, .pyInt 2000, true, .pyNone, []⟩

/-- A record with a fresh auction id. -/
def recB : AuctionRecord :=
  ⟨.pyStr "B1", .pyInt 50, .pyInt 1500, false, .pyNone, []⟩

/-- Witness for C1 at a store holding `recA` and a batch containing a
duplicate of its id. -/
theorem save_auctions_dedup_witness :
    uniqueIds [recA] = true
    ∧ ((save_auctions [recA] [recA2, recB]).2 ≤
        ([recA2, recB].filter (fun r => !dbHas [recA] r.auction_id)).length
      ∧ (∀ aid, dbHas [recA] aid = true →
          dbFind (save_auctions [recA] [recA2, recB]).1 aid = dbFind [recA] aid)
      ∧ uniqueIds (save_auctions [recA] [recA2, recB]).1 = true
      ∧ (save_auctions [recA] [recA2, recB]).1.length
          = [recA].length + (save_auctions [recA] [recA2, recB]).2) :=
  ⟨rfl, save_auctions_dedup [recA] [recA2, recB] rfl⟩

/-- The raw auction used by the repeated-cycle scenario. -/
def auctionA1 : AttrMap :=
  [("auction_id", .pyStr "A1"), ("price", .pyInt 100),
   ("timestamp", .pyInt 1000), ("bin", .pyBool false)]

/-- Claim C2: running the full cycle twice against an unchanged
upstream response leaves the table exactly as after one run and the
second run saves 0 new rows; two consecutive cycles returning the
identical single auction leave exactly 1 stored row. -/
theorem job_idempotent :
    (∀ (db : Db) (auctions : List AttrMap),
        job (job db auctions).1 auctions = ((job db auctions).1, 0))
    ∧ (job (job [] [auctionA1]).1 [auctionA1]).1.length = 1 := by
  constructor
  · intro db auctions
    by_cases hA : auctions.isEmpty = true
    · simp [job, hA]
    · have hA2 : auctions.isEmpty = false := by
        revert hA; cases auctions.isEmpty <;> simp
      simp only [job, hA2, Bool.false_eq_true, if_false]
      exact save_all_present (fun r hr => save_mem_has _ db r hr)
  · rfl

/-- Claim C6: the decoder fails exactly with a truncation error, an
unrecognized-tag error or a base64 error — every input yields either a
decoded tag or one of those three — and each of the three arises on a
concrete input, while a well-formed buffer decodes to a tag. -/
theorem decodeRaw_taxonomy :
    (∀ raw : String,
        (∃ t, decodeRaw raw = .ok t)
        ∨ decodeRaw raw = .error .truncated
        ∨ (∃ b, decodeRaw raw = .error (.unknownTag b))
        ∨ (∃ m, decodeRaw raw = .error (.badBase64 m)))
    ∧ decodeRaw "CgAAAA==" = .ok (.compound [])
    ∧ decodeRaw "CgA=" = .error .truncated
    ∧ decodeRaw "DQAAAA==" = .error (.unknownTag 13)
    ∧ decodeRaw "A" = .error (.badBase64 "Incorrect padding") := by
  refine ⟨?_, rfl, rfl, rfl, rfl⟩
  intro raw
  rcases h : decodeRaw raw with e | t
  · cases e with
    | badBase64 m => exact Or.inr (Or.inr (Or.inr ⟨m, rfl⟩))
    | truncated => exact Or.inr (Or.inl rfl)
    | unknownTag b => exact Or.inr (Or.inr (Or.inl ⟨b, rfl⟩))
  · exact Or.inl ⟨t, rfl⟩

/-- Claim C9: a failed cycle is logged and followed by the same fixed
60-second sleep, after which the loop simply continues with the rest
of the trace (the retry); the loop terminates exactly when the
explicit interrupt signal occurs in the trace — no data or network
error ever terminates it. -/
theorem main_loop_resilient :
    (∀ m rest, mainLoop (.failure m :: rest)
        = (.cycle :: .logged m :: .slept 60 :: (mainLoop rest).1,
           (mainLoop rest).2))
    ∧ (∀ trace, (mainLoop trace).2 = true ↔ CycleOutcome.interrupt ∈ trace) := by
  constructor
  · intro m rest; rfl
  · intro trace
    induction trace with
    | nil => simp [mainLoop]
    | cons o rest ih =>
      cases o with
      | ok => simpa [mainLoop] using ih
      | failure m => simpa [mainLoop] using ih
      | interrupt => simp [mainLoop]


/-- Attribute mapping of a pet whose embedded `petInfo` decodes to an
object with an empty-string `type` field. -/
def petAttrsEmptyType : AttrMap :=
  [("id", .pyStr "PET"), ("petInfo", .pyStr "\x7b\"type\":\"\"\x7d")]

/-- Claim C3 (counterexample): the embedded `petInfo` decode succeeds
and the object contains a `type` field, yet the id is not rewritten to
`"PET_" + uppercase(type)` — it stays `"PET"`, because the code only
rewrites for a truthy (non-empty) `type`. -/
theorem pet_empty_type_counterexample :
    jsonLoads "\x7b\"type\":\"\"\x7d" = .ok (.pyDict [("type", .pyStr "")])
    ∧ dget (petRewrite petAttrsEmptyType) "id" = some (.pyStr "PET")
    ∧ ("PET" : String) ≠ "PET_" ++ "".toUpper := by
  refine ⟨rfl, rfl, ?_⟩
  decide

/-- Claim C3 (amended): for a decoded mapping with `id == "PET"` and a
string `petInfo` whose embedded decode yields an object whose `type`
field is a non-empty string, the id is rewritten to
`"PET_" + uppercase(type)`; when the embedded decode fails, or the
`type` field is the empty string, the original `"PET"` is retained —
and the rewrite step never raises (it is a total function). -/
theorem petRewrite_correct (m : AttrMap) :
    (∀ s d t, dget m "id" = some (.pyStr "PET") →
        dget m "petInfo" = some (.pyStr s) →
        jsonLoads s = .ok (.pyDict d) →
        dget d "type" = some (.pyStr t) → t ≠ "" →
        petRewrite m = dset m "id" (.pyStr ("PET_" ++ t.toUpper)))
    ∧ (∀ s e, dget m "petInfo" = some (.pyStr s) →
        jsonLoads s = .error e → petRewrite m = m)
    ∧ (∀ s d, dget m "id" = some (.pyStr "PET") →
        dget m "petInfo" = some (.pyStr s) →
        jsonLoads s = .ok (.pyDict d) →
        dget d "type" = some (.pyStr "") →
        petRewrite m = m) := by
  refine ⟨?_, ?_, ?_⟩
  · intro s d t h1 h2 h3 h4 h5
    have hpet : isPetId m = true := by simp [isPetId, h1]
    have hc : dcontains m "petInfo" = true := dcontains_of_dget h2
    have htt : truthy (PyVal.pyStr t) = true := by simp [truthy, h5]
    simp only [petRewrite, hpet, hc, Bool.and_self, if_true, h2, h3, h4, htt]
  · intro s e h2 h3
    by_cases hg : (isPetId m && dcontains m "petInfo") = true
    · simp only [petRewrite, hg, if_true, h2, h3]
    · have hg2 : (isPetId m && dcontains m "petInfo") = false := by
        revert hg; cases isPetId m && dcontains m "petInfo" <;> simp
      simp only [petRewrite, hg2, Bool.false_eq_true, if_false]
  · intro s d h1 h2 h3 h4
    have hpet : isPetId m = true := by simp [isPetId, h1]
    have hc : dcontains m "petInfo" = true := dcontains_of_dget h2
    have htt : truthy (PyVal.pyStr "") = false := by simp [truthy]
    simp only [petRewrite, hpet, hc, Bool.and_self, if_true, h2, h3, h4, htt,
      Bool.false_eq_true, if_false]

/-- Attribute mapping of the spec's ocelot pet scenario. -/
def petAttrsOcelot : AttrMap :=
  [("id", .pyStr "PET"), ("petInfo", .pyStr "\x7b\"type\":\"ocelot\"\x7d")]

/-- Witness for the amended C3: the ocelot pet is rewritten to
`PET_OCELOT`. -/
theorem petRewrite_correct_witness :
    petRewrite petAttrsOcelot
      = dset petAttrsOcelot "id" (.pyStr ("PET_" ++ "ocelot".toUpper)) :=
  (petRewrite_correct petAttrsOcelot).1 "\x7b\"type\":\"ocelot\"\x7d"
    [("type", .pyStr "ocelot")] "ocelot" rfl rfl rfl rfl (by decide)

/-- Claim C4: an auction without an `auction_id` is dropped by
`process_auction` (it returns `none`), contributes nothing to the
processed batch, and the job writes no row for it — the resulting
table is the one obtained from the remaining auctions alone. -/
theorem process_missing_auction_id (a : AttrMap)
    (h : dget a "auction_id" = none) :
    process_auction a = none
    ∧ (∀ pre post, processList (pre ++ a :: post)
        = processList pre ++ processList post)
    ∧ (∀ (db : Db) pre post, job db (pre ++ a :: post) = job db (pre ++ post)) := by
  have hp : process_auction a = none := by
    simp only [process_auction, dgetD, h, truthy, Bool.not_false, if_true]
  have hl : ∀ pre post, processList (pre ++ a :: post)
      = processList pre ++ processList post := by
    intro pre post
    simp [processList, List.filterMap_append, List.filterMap_cons, hp]
  refine ⟨hp, hl, ?_⟩
  intro db pre post
  unfold job
  have hne : (pre ++ a :: post).isEmpty = false := by
    cases pre <;> simp
  rw [hne]
  by_cases hpp : (pre ++ post).isEmpty = true
  · have h2 : pre = [] ∧ post = [] := by
      cases pre <;> simp at hpp ⊢
      exact hpp
    obtain ⟨rfl, rfl⟩ := h2
    simp [processList, List.filterMap, hp, save_auctions]
  · have hpp2 : (pre ++ post).isEmpty = false := by
      revert hpp; cases (pre ++ post).isEmpty <;> simp
    rw [hpp2]
    simp only [Bool.false_eq_true, if_false, hl pre post]
    simp [processList, List.filterMap_append]

/-- A raw auction with no `auction_id`. -/
def noIdAuction : AttrMap := [("price", .pyInt 5)]

/-- Witness for C4 at a concrete id-less auction. -/
theorem process_missing_auction_id_witness :
    dget noIdAuction "auction_id" = none
    ∧ (process_auction noIdAuction = none
      ∧ (∀ pre post, processList (pre ++ noIdAuction :: post)
          = processList pre ++ processList post)
      ∧ (∀ (db : Db) pre post,
          job db (pre ++ noIdAuction :: post) = job db (pre ++ post))) :=
  ⟨rfl, process_missing_auction_id noIdAuction rfl⟩

/-- Claim C5: an auction with an `auction_id` whose item payload fails
to decode is not dropped: `process_auction` returns a record with
empty `item_attributes` and an absent (`None`) item id, and the
failure stays contained to that single record — the rest of the batch
is processed exactly as without it. -/
theorem process_decode_failure (a : AttrMap) (aid : PyVal) (msg : String)
    (hid : dget a "auction_id" = some aid)
    (hta : truthy aid = true)
    (hdec : decode_inventory_data (dgetD a "item_bytes" (.pyStr ""))
      = errDict msg) :
    process_auction a = some
      { auction_id := aid
        price := dgetD a "price" (.pyInt 0)
        timestamp := dgetD a "timestamp" (.pyInt 0)
        bin := truthy (dgetD a "bin" (.pyBool false))
        id := .pyNone
        item_attributes := [] }
    ∧ (∀ pre post, processList (pre ++ a :: post)
        = processList pre
          ++ { auction_id := aid
               price := dgetD a "price" (.pyInt 0)
               timestamp := dgetD a "timestamp" (.pyInt 0)
               bin := truthy (dgetD a "bin" (.pyBool false))
               id := .pyNone
               item_attributes := [] } :: processList post) := by
  have haid : dgetD a "auction_id" PyVal.pyNone = aid := by
    simp [dgetD, hid]
  have hp : process_auction a = some
      { auction_id := aid
        price := dgetD a "price" (.pyInt 0)
        timestamp := dgetD a "timestamp" (.pyInt 0)
        bin := truthy (dgetD a "bin" (.pyBool false))
        id := .pyNone
        item_attributes := [] } := by
    simp only [process_auction, haid, hta, Bool.not_true, Bool.false_eq_true,
      if_false, hdec]
    have herr : dcontains (errDict msg) "error" = true := by
      simp [dcontains, errDict]
    rw [herr]
    rfl
  refine ⟨hp, ?_⟩
  intro pre post
  simp [processList, List.filterMap_append, List.filterMap_cons, hp]

/-- A raw auction whose item payload is absent, so decoding fails with
the empty-raw-data error. -/
def failDecodeAuction : AttrMap := [("auction_id", .pyStr "A1")]

/-- Witness for C5 at a concrete auction with an undecodable payload. -/
theorem process_decode_failure_witness :
    dget failDecodeAuction "auction_id" = some (.pyStr "A1")
    ∧ truthy (.pyStr "A1") = true
    ∧ decode_inventory_data (dgetD failDecodeAuction "item_bytes" (.pyStr ""))
        = errDict "Empty raw data"
    ∧ process_auction failDecodeAuction = some
        { auction_id := .pyStr "A1"
          price := dgetD failDecodeAuction "price" (.pyInt 0)
          timestamp := dgetD failDecodeAuction "timestamp" (.pyInt 0)
          bin := truthy (dgetD failDecodeAuction "bin" (.pyBool false))
          id := .pyNone
          item_attributes := [] } :=
  ⟨rfl, rfl, rfl,
   (process_decode_failure failDecodeAuction (.pyStr "A1") "Empty raw data"
      rfl rfl rfl).1⟩


theorem countOnly_no_error (item : NbtTag) :
    dcontains (countOnly item) "error" = false := by
  unfold countOnly
  split <;> rfl

theorem decodeRaw_ok_ne_empty {raw : String} {root : NbtTag}
    (h : decodeRaw raw = .ok root) : raw ≠ "" := by
  intro he
  subst he
  have h0 : decodeRaw "" = .error .truncated := rfl
  rw [h0] at h
  exact Except.noConfusion h

/-- Claim C7: a successfully parsed payload whose item list has zero
entries yields the explicit no-items error mapping — not an empty
mapping — and an item lacking the nested `tag`/`ExtraAttributes` path
(either `tag` is absent, or `tag` is present without an
`ExtraAttributes` child, the two disjuncts of line 68) yields only the
item-count metadata, with no error entry. -/
theorem decode_edge_cases :
    (∀ raw root, decodeRaw raw = .ok root →
        tagGet root "i" = some (.tlist []) →
        decode_inventory_data (.pyStr raw) = errDict "No items in inventory"
        ∧ decode_inventory_data (.pyStr raw) ≠ [])
    ∧ (∀ raw root kvs rest, decodeRaw raw = .ok root →
        tagGet root "i" = some (.tlist (NbtTag.compound kvs :: rest)) →
        (tagGet (NbtTag.compound kvs) "tag" = none
          ∨ ∃ tagT, tagGet (NbtTag.compound kvs) "tag" = some tagT
              ∧ tagGet tagT "ExtraAttributes" = none) →
        decode_inventory_data (.pyStr raw) = countOnly (NbtTag.compound kvs)
        ∧ dcontains (decode_inventory_data (.pyStr raw)) "error" = false) := by
  constructor
  · intro raw root h hi
    have hne : raw ≠ "" := decodeRaw_ok_ne_empty h
    have ht : truthy (PyVal.pyStr raw) = true := by simp [truthy, hne]
    have hd : decode_inventory_data (.pyStr raw)
        = errDict "No items in inventory" := by
      simp only [decode_inventory_data, ht, Bool.not_true, Bool.false_eq_true,
        if_false, h, hi]
    exact ⟨hd, by rw [hd]; simp [errDict]⟩
  · intro raw root kvs rest h hi hpath
    have hne : raw ≠ "" := decodeRaw_ok_ne_empty h
    have ht : truthy (PyVal.pyStr raw) = true := by simp [truthy, hne]
    have hd : decode_inventory_data (.pyStr raw)
        = countOnly (NbtTag.compound kvs) := by
      rcases hpath with htag | ⟨tagT, htag, hea⟩
      · simp only [decode_inventory_data, ht, Bool.not_true, Bool.false_eq_true,
          if_false, h, hi, extractItem, htag]
      · simp only [decode_inventory_data, ht, Bool.not_true, Bool.false_eq_true,
          if_false, h, hi, extractItem, htag, hea]
    exact ⟨hd, by rw [hd]; exact countOnly_no_error _⟩

/-- Root compound with one item holding a `Count` byte and a `tag`
child that lacks an `ExtraAttributes` entry (the second disjunct of
line 68). -/
def rawTagNoEA : String := "CgAACQABaQoAAAABAQAFQ291bnQCCgADdGFnAAAA"

/-- Witness for C7: the three edge payloads, concretely decoded — no
items, `tag` absent, and `tag` present without `ExtraAttributes`. -/
theorem decode_edge_cases_witness :
    decode_inventory_data (.pyStr rawEmptyItems) = errDict "No items in inventory"
    ∧ decode_inventory_data (.pyStr rawCountOnly)
        = countOnly (.compound [("Count", .prim (.sInt 1))])
    ∧ dcontains (decode_inventory_data (.pyStr rawCountOnly)) "error" = false
    ∧ decode_inventory_data (.pyStr rawTagNoEA)
        = countOnly (.compound
            [("Count", .prim (.sInt 2)), ("tag", .compound [])])
    ∧ dcontains (decode_inventory_data (.pyStr rawTagNoEA)) "error" = false :=
  ⟨(decode_edge_cases.1 rawEmptyItems (.compound [("i", .tlist [])]) rfl rfl).1,
   (decode_edge_cases.2 rawCountOnly
      (.compound [("i", .tlist [.compound [("Count", .prim (.sInt 1))]])])
      [("Count", .prim (.sInt 1))] [] rfl rfl (Or.inl rfl)).1,
   (decode_edge_cases.2 rawCountOnly
      (.compound [("i", .tlist [.compound [("Count", .prim (.sInt 1))]])])
      [("Count", .prim (.sInt 1))] [] rfl rfl (Or.inl rfl)).2,
   (decode_edge_cases.2 rawTagNoEA
      (.compound [("i", .tlist [.compound
        [("Count", .prim (.sInt 2)), ("tag", .compound [])]])])
      [("Count", .prim (.sInt 2)), ("tag", .compound [])] []
      rfl rfl (Or.inr ⟨.compound [], rfl, rfl⟩)).1,
   (decode_edge_cases.2 rawTagNoEA
      (.compound [("i", .tlist [.compound
        [("Count", .prim (.sInt 2)), ("tag", .compound [])]])])
      [("Count", .prim (.sInt 2)), ("tag", .compound [])] []
      rfl rfl (Or.inr ⟨.compound [], rfl, rfl⟩)).2⟩

/-- Claim C8 (amended): every record produced by the processor has an
`item_attributes` mapping that excludes the promoted `id` key, and no
key other than `count` carries a null-equivalent value.  (`count` is
the one exemption the counterexample forces: line 65 stores
`item["Count"].value` directly, which is the reader's unset — null —
`value` when the `Count` child is a container tag, and the code never
filters nulls.) -/
theorem record_attrs_clean (a : AttrMap) (r : AuctionRecord)
    (h : process_auction a = some r) :
    dcontains r.item_attributes "id" = false
    ∧ ∀ p ∈ r.item_attributes, p.1 ≠ "count" → p.2 ≠ PyVal.pyNone := by
  simp only [process_auction] at h
  by_cases ht : truthy (dgetD a "auction_id" PyVal.pyNone) = true
  · rw [ht] at h
    simp only [Bool.not_true, Bool.false_eq_true, if_false, Option.some.injEq] at h
    subst h
    constructor
    · exact dcontains_dremove_self _ _
    · intro p hp
      have hp2 := mem_dremove hp
      by_cases he : dcontains
          (decode_inventory_data (dgetD a "item_bytes" (.pyStr ""))) "error" = true
      · rw [he] at hp2
        simp at hp2
      · have he2 : dcontains
            (decode_inventory_data (dgetD a "item_bytes" (.pyStr ""))) "error"
            = false := by
          revert he
          cases dcontains (decode_inventory_data (dgetD a "item_bytes" (.pyStr ""))) "error" <;> simp
        rw [he2] at hp2
        simp only [Bool.false_eq_true, if_false] at hp2
        exact nnec_decode _ p hp2
  · have ht2 : truthy (dgetD a "auction_id" PyVal.pyNone) = false := by
      revert ht
      cases truthy (dgetD a "auction_id" PyVal.pyNone) <;> simp
    rw [ht2] at h
    simp at h

/-- Raw auction carrying the count-only payload. -/
def countAuction : AttrMap :=
  [("auction_id", .pyStr "A1"), ("item_bytes", .pyStr rawCountOnly)]

/-- The record the processor produces for `countAuction`. -/
def countRecord : AuctionRecord :=
  { auction_id := .pyStr "A1", price := .pyInt 0, timestamp := .pyInt 0,
    bin := false, id := .pyNone,
    item_attributes := [("count", .pyInt 1)] }

/-- Witness for the amended C8 at a concretely processed auction. -/
theorem record_attrs_clean_witness :
    process_auction countAuction = some countRecord
    ∧ (dcontains countRecord.item_attributes "id" = false
      ∧ ∀ p ∈ countRecord.item_attributes, p.1 ≠ "count" →
          p.2 ≠ PyVal.pyNone) :=
  ⟨rfl, record_attrs_clean countAuction countRecord rfl⟩

/-- Item payload whose `Count` child is a compound tag, making line
65 store the reader's unset `value` — null — under `count`. -/
def rawNullCount : String := "CgAACQABaQoAAAABCgAFQ291bnQAAAA="

/-- Raw auction carrying the container-typed `Count` payload. -/
def nullCountAuction : AttrMap :=
  [("auction_id", .pyStr "N1"), ("item_bytes", .pyStr rawNullCount)]

/-- Claim C8 (counterexample): a decodable payload whose `Count` child
is a compound tag yields a stored record whose serialized
`item_attributes` maps `count` to the null-equivalent value, so the
mapping does not exclude every key with a null-equivalent value. -/
theorem record_null_count_counterexample :
    ∃ r : AuctionRecord, process_auction nullCountAuction = some r
      ∧ ("count", PyVal.pyNone) ∈ r.item_attributes :=
  ⟨{ auction_id := .pyStr "N1", price := .pyInt 0, timestamp := .pyInt 0,
     bin := false, id := .pyNone,
     item_attributes := [("count", .pyNone)] },
   rfl, List.mem_singleton.2 rfl⟩

/-- Claim C10: when the item payload decodes successfully but the
extracted attribute mapping happens to contain a key literally named
`error` (a genuine attribute), the processor treats it as a decode
failure: the whole decoded mapping is discarded and the record is
stored with empty `item_attributes` and an absent item id. -/
theorem error_attr_discards (a : AttrMap) (aid : PyVal) (raw : String)
    (root item : NbtTag) (more : List NbtTag)
    (hid : dget a "auction_id" = some aid)
    (hta : truthy aid = true)
    (hib : dgetD a "item_bytes" (.pyStr "") = .pyStr raw)
    (hdec : decodeRaw raw = .ok root)
    (hi : tagGet root "i" = some (.tlist (item :: more)))
    (herr : dcontains (extractItem item) "error" = true) :
    decode_inventory_data (.pyStr raw) = extractItem item
    ∧ process_auction a = some
      { auction_id := aid
        price := dgetD a "price" (.pyInt 0)
        timestamp := dgetD a "timestamp" (.pyInt 0)
        bin := truthy (dgetD a "bin" (.pyBool false))
        id := .pyNone
        item_attributes := [] } := by
  have hne : raw ≠ "" := decodeRaw_ok_ne_empty hdec
  have ht : truthy (PyVal.pyStr raw) = true := by simp [truthy, hne]
  have hd : decode_inventory_data (.pyStr raw) = extractItem item := by
    simp only [decode_inventory_data, ht, Bool.not_true, Bool.false_eq_true,
      if_false, hdec, hi]
  have haid : dgetD a "auction_id" PyVal.pyNone = aid := by
    simp [dgetD, hid]
  refine ⟨hd, ?_⟩
  simp only [process_auction, haid, hta, Bool.not_true, Bool.false_eq_true,
    if_false, hib, hd, herr, if_true]
  rfl

/-- The crafted item whose `ExtraAttributes` carries an `error` key. -/
def errorAttrItem : NbtTag :=
  .compound [("tag", .compound [("ExtraAttributes",
      .compound [("error", .prim (.sStr "x"))])])]

/-- Raw auction carrying the `error`-attribute payload. -/
def errorAttrAuction : AttrMap :=
  [("auction_id", .pyStr "E1"), ("item_bytes", .pyStr rawErrorAttr)]

/-- Witness for C10 at a concrete payload whose decoded attributes
contain a genuine `error` key. -/
theorem error_attr_discards_witness :
    dcontains (extractItem errorAttrItem) "error" = true
    ∧ (decode_inventory_data (.pyStr rawErrorAttr) = extractItem errorAttrItem
      ∧ process_auction errorAttrAuction = some
        { auction_id := .pyStr "E1"
          price := dgetD errorAttrAuction "price" (.pyInt 0)
          timestamp := dgetD errorAttrAuction "timestamp" (.pyInt 0)
          bin := truthy (dgetD errorAttrAuction "bin" (.pyBool false))
          id := .pyNone
          item_attributes := [] }) :=
  ⟨rfl, error_attr_discards errorAttrAuction (.pyStr "E1") rawErrorAttr
      (.compound [("i", .tlist [errorAttrItem])]) errorAttrItem []
      rfl rfl rfl rfl rfl rfl⟩

end Scraper



